import Mathlib

/-!
Verification of the legal_ai core: hybrid retrieval (vector_store.py),
citation extraction/validation (citation_extractor.py), the dispute RAG
service (dispute_service.py) and query routing (orchestrator.py).

Text is modelled as `List Char` (one entry per Unicode scalar, matching
Python's `str`).  Regex patterns from the source are hand-compiled into
deterministic scanners: each pattern used by the code is of a shape
(literal keywords, greedy digit/space runs followed by characters disjoint
from the run's class, optional tail groups) for which greedy maximal-munch
matching coincides with Python `re` backtracking semantics, and
`re.finditer` is an anchored scan that retries at each position and resumes
after the end of every match.
-/

namespace LegalAI

/-- Python `str` contents, one list entry per Unicode scalar. -/
abbrev Str := List Char

/-- Python regex `\d` (inputs of interest are ASCII decimal digits). -/
def isPyDigit (c : Char) : Bool := c.isDigit

/-- Python regex `\s` for `str` patterns: Unicode whitespace. -/
def isPySpace (c : Char) : Bool :=
  c == ' ' || c == '\t' || c == '\n' || c == '\r' ||
  c.toNat == 0x0b || c.toNat == 0x0c ||
  c.toNat == 0x1c || c.toNat == 0x1d || c.toNat == 0x1e || c.toNat == 0x1f ||
  c.toNat == 0x85 || c.toNat == 0xa0 || c.toNat == 0x1680 ||
  (0x2000 ≤ c.toNat && c.toNat ≤ 0x200a) ||
  c.toNat == 0x2028 || c.toNat == 0x2029 || c.toNat == 0x202f ||
  c.toNat == 0x205f || c.toNat == 0x3000

/-- The character class `[ა-ჰ]` (Georgian Mkhedruli letters U+10D0..U+10F0). -/
def isGeoLetter (c : Char) : Bool :=
  0x10D0 ≤ c.toNat && c.toNat ≤ 0x10F0

/-- Strip a literal prefix; `stripLit lit l = some rest` iff `l = lit ++ rest`. -/
def stripLit : Str → Str → Option Str
  | [], l => some l
  | _ :: _, [] => none
  | a :: as, b :: bs => if a = b then stripLit as bs else none

/-- Greedy `\d+`: the maximal leading digit run, requiring at least one digit. -/
def digits1 (l : Str) : Option (Str × Str) :=
  let d := l.takeWhile isPyDigit
  if d.isEmpty then none else some (d, l.dropWhile isPyDigit)

/-- Greedy `\s*`: drop the maximal leading whitespace run. -/
def dropSpaces (l : Str) : Str := l.dropWhile isPySpace

theorem digits1_digits {l d r : Str} (h : digits1 l = some (d, r)) :
    d ≠ [] ∧ ∀ c ∈ d, isPyDigit c := by
  simp only [digits1] at h
  split at h
  · exact absurd h (by simp)
  · rename_i hne
    injection h with h'
    injection h' with h1 h2
    subst h1
    refine ⟨by simpa [List.isEmpty_iff] using hne, ?_⟩
    intro c hc
    exact List.mem_takeWhile_imp hc

namespace CitationExtractor

/-- One structured tuple produced by a pattern's extractor lambda
(`citation_data` in `extract_citations`). -/
structure RawMatch where
  article : Str
  clause : Option Str
  letter : Option Str
  raw : Str
  isRange : Bool
deriving DecidableEq, Repr

/-- The literal `მუხლი` shared by patterns 1, 2, 3, 5. -/
def kMuxli : Str := "მუხლი".data
/-- The literal `ნაწილი` of pattern 3. -/
def kNacili : Str := "ნაწილი".data
/-- The literal `პუნქტი` of pattern 3. -/
def kPunkti : Str := "პუნქტი".data
/-- The literal `მუხლ` of pattern 6. -/
def kMuxl : Str := "მუხლ".data
/-- The literal `ებ` of pattern 6. -/
def kEb : Str := "ებ".data

/-- Raw span of a match that consumed `l` down to `rest`. -/
def rawOf (l rest : Str) : Str := l.take (l.length - rest.length)

/-- Pattern 1, `მუხლი\s*(\d+)\.(\d+)\.([ა-ჰ])`, anchored at the start of `l`. -/
def matchP1 (l : Str) : Option RawMatch := do
  let r1 ← stripLit kMuxli l
  let (d1, r2) ← digits1 (dropSpaces r1)
  let r3 ← stripLit ['.'] r2
  let (d2, r4) ← digits1 r3
  let r5 ← stripLit ['.'] r4
  match r5 with
  | c :: r6 =>
    if isGeoLetter c then
      some { article := d1, clause := some d2, letter := some [c],
             raw := rawOf l r6, isRange := false }
    else none
  | [] => none

/-- Pattern 2, `მუხლი\s*(\d+)\.(\d+)`, anchored at the start of `l`. -/
def matchP2 (l : Str) : Option RawMatch := do
  let r1 ← stripLit kMuxli l
  let (d1, r2) ← digits1 (dropSpaces r1)
  let r3 ← stripLit ['.'] r2
  let (d2, r4) ← digits1 r3
  some { article := d1, clause := some d2, letter := none,
         raw := rawOf l r4, isRange := false }

/-- Greedy `,?`: consume one comma when present (a comma can never start the
required continuation `\s*ნაწილი`/`\s*პუნქტი`, so this is exact). -/
def optComma : Str → Str
  | ',' :: r => r
  | r => r

/-- Pattern 3, `მუხლი\s*(\d+),?\s*ნაწილი\s*(\d+)(?:,?\s*პუნქტი\s*([ა-ჰ]))?`. -/
def matchP3 (l : Str) : Option RawMatch := do
  let r1 ← stripLit kMuxli l
  let (d1, r2) ← digits1 (dropSpaces r1)
  let r3 ← stripLit kNacili (dropSpaces (optComma r2))
  let (d2, r4) ← digits1 (dropSpaces r3)
  match stripLit kPunkti (dropSpaces (optComma r4)) with
  | some r5 =>
    match dropSpaces r5 with
    | c :: r6 =>
      if isGeoLetter c then
        some { article := d1, clause := some d2, letter := some [c],
               raw := rawOf l r6, isRange := false }
      else
        some { article := d1, clause := some d2, letter := none,
               raw := rawOf l r4, isRange := false }
    | [] =>
      some { article := d1, clause := some d2, letter := none,
             raw := rawOf l r4, isRange := false }
  | none =>
    some { article := d1, clause := some d2, letter := none,
           raw := rawOf l r4, isRange := false }

/-- Pattern 4, `(\d+)-ე\s*მუხლ[ი|ის]` (the class `[ი|ის]` is the character
set `{ი, |, ს}`). -/
def matchP4 (l : Str) : Option RawMatch := do
  let (d1, r1) ← digits1 l
  let r2 ← stripLit ['-', 'ე'] r1
  let r3 ← stripLit kMuxl (dropSpaces r2)
  match r3 with
  | c :: r4 =>
    if c = 'ი' ∨ c = '|' ∨ c = 'ს' then
      some { article := d1, clause := none, letter := none,
             raw := rawOf l r4, isRange := false }
    else none
  | [] => none

/-- Pattern 5, `მუხლი\s*(\d+)(?![.\d-])` with its negative lookahead. -/
def matchP5 (l : Str) : Option RawMatch := do
  let r1 ← stripLit kMuxli l
  let (d1, r2) ← digits1 (dropSpaces r1)
  match r2 with
  | c :: _ =>
    if c = '.' ∨ c = '-' ∨ isPyDigit c then none
    else
      some { article := d1, clause := none, letter := none,
             raw := rawOf l r2, isRange := false }
  | [] =>
    some { article := d1, clause := none, letter := none,
           raw := rawOf l r2, isRange := false }

/-- Greedy `(?:ებ)?`: consume `ებ` when present (`ებ` can never also begin
the required continuation `ი`, so this is exact). -/
def optEb (r : Str) : Str :=
  match stripLit kEb r with
  | some r' => r'
  | none => r

/-- Pattern 6, `მუხლ(?:ებ)?ი\s*(\d+)[-–](\d+)`; the article field is the
f-string `f"{g1}-{g2}"` with an ASCII hyphen. -/
def matchP6 (l : Str) : Option RawMatch := do
  let r1 ← stripLit kMuxl l
  let r2 ← stripLit ['ი'] (optEb r1)
  let (d1, r3) ← digits1 (dropSpaces r2)
  match r3 with
  | c :: r4 =>
    if c = '-' ∨ c = '–' then do
      let (d2, r5) ← digits1 r4
      some { article := d1 ++ '-' :: d2, clause := none, letter := none,
             raw := rawOf l r5, isRange := true }
    else none
  | [] => none

/-- `re.finditer`: scan left to right, try the anchored matcher at each
position, emit the match and resume after its end.  All patterns consume at
least one character, so the fuel `l.length` never runs out early. -/
def findIterAux (m : Str → Option RawMatch) : Nat → Str → List RawMatch
  | 0, _ => []
  | _ + 1, [] => []
  | fuel + 1, l@(_ :: rest) =>
    match m l with
    | some r => r :: findIterAux m fuel (l.drop r.raw.length)
    | none => findIterAux m fuel rest

/-- All matches of one pattern over `text`, in textual order. -/
def findIter (m : Str → Option RawMatch) (text : Str) : List RawMatch :=
  findIterAux m text.length text

/-- The ordered `PATTERNS` list of `CitationExtractor`. -/
def patterns : List (Str → Option RawMatch) :=
  [matchP1, matchP2, matchP3, matchP4, matchP5, matchP6]

/-- The stream of structured matches in the order `extract_citations`
visits them: patterns in `PATTERNS` order, matches of each pattern in
textual order. -/
def allRawMatches (text : Str) : List RawMatch :=
  (patterns.map (fun m => findIter m text)).flatten

/-- The deduplication key `(article, clause, letter)` (`citation_key`). -/
def key (m : RawMatch) : Str × Option Str × Option Str :=
  (m.article, m.clause, m.letter)

/-- Python `str.split("-")` on the article field. -/
def splitDashAux : Str → Str → List Str
  | [], acc => [acc.reverse]
  | c :: t, acc =>
    if c = '-' then acc.reverse :: splitDashAux t []
    else splitDashAux t (c :: acc)

/-- Python `article.split("-")`. -/
def splitDash (s : Str) : List Str := splitDashAux s []

/-- Range-bound validation of `extract_citations` (and `validate_citation`):
split on `-`, require exactly two parts, check both endpoints; single
articles are checked by exact membership (`_validate_article_number`). -/
def citationValid (valid : List Str) (m : RawMatch) : Bool :=
  if m.isRange then
    match splitDash m.article with
    | [a, b] => valid.contains a && valid.contains b
    | _ => false
  else valid.contains m.article

/-- `MATSNE_BASE_URL`. -/
def matsneBase : Str := "https://matsne.gov.ge/ka/document/view/1043717".data

/-- `format_citation_link`: `base#ARTICLE_{article}[_{clause}][_{letter}]`,
with Python truthiness on the optional parts. -/
def format_citation_link (article : Str) (clause letter : Option Str) : Str :=
  matsneBase ++
    (if article.isEmpty then [] else
      "#ARTICLE_".data ++ article ++
        (match clause with
         | some c => if c.isEmpty then [] else '_' :: c
         | none => []) ++
        (match letter with
         | some c => if c.isEmpty then [] else '_' :: c
         | none => []))

/-- The `Citation` pydantic model (app.models.schemas). -/
structure Citation where
  raw_text : Str
  article : Str
  clause : Option Str
  letter : Option Str
  is_valid : Bool
  matsne_url : Option Str
deriving DecidableEq, Repr

/-- Build the `Citation` object exactly as the loop body of
`extract_citations` does: a link is attached only when valid. -/
def mkCitation (valid : List Str) (m : RawMatch) : Citation :=
  { raw_text := m.raw, article := m.article, clause := m.clause,
    letter := m.letter, is_valid := citationValid valid m,
    matsne_url :=
      if citationValid valid m then
        some (format_citation_link m.article m.clause m.letter)
      else none }

/-- The main loop of `extract_citations`: visit the match stream in order,
skip matches whose key is in `seen_citations`, append the rest. -/
def extractLoop (valid : List Str) :
    List RawMatch → List (Str × Option Str × Option Str) → List Citation
  | [], _ => []
  | m :: ms, seen =>
    if key m ∈ seen then extractLoop valid ms seen
    else mkCitation valid m :: extractLoop valid ms (key m :: seen)

/-- `CitationExtractor.extract_citations`. -/
def extract_citations (valid : List Str) (text : Str) : List Citation :=
  extractLoop valid (allRawMatches text) []

/-- First-occurrence-wins deduplication of the raw match stream, the
specification the loop is checked against. -/
def dedupByKey :
    List RawMatch → List (Str × Option Str × Option Str) → List RawMatch
  | [], _ => []
  | m :: ms, seen =>
    if key m ∈ seen then dedupByKey ms seen
    else m :: dedupByKey ms (key m :: seen)

/-- `CitationExtractor.validate_citation`. -/
def validate_citation (valid : List Str) (c : Citation) : Bool :=
  if c.article.contains '-' then
    match splitDash c.article with
    | [a, b] => valid.contains a && valid.contains b
    | _ => false
  else valid.contains c.article

/-- Models `_load_article_index`: the argument is the outcome of reading
and parsing the registry file; a missing file or a parse failure leaves
the valid-article set empty (logged, never raised). -/
def load_article_index : Except Unit (List Str) → List Str
  | .error _ => []
  | .ok arts => arts

/-- The key of a built citation. -/
def citationKey (c : Citation) : Str × Option Str × Option Str :=
  (c.article, c.clause, c.letter)

theorem extractLoop_eq_dedup (valid : List Str) :
    ∀ ms seen, extractLoop valid ms seen =
      (dedupByKey ms seen).map (mkCitation valid) := by
  intro ms
  induction ms with
  | nil => intro seen; rfl
  | cons m ms ih =>
    intro seen
    simp only [extractLoop, dedupByKey]
    split
    · exact ih seen
    · simp [ih]

theorem dedupByKey_keys_nodup :
    ∀ ms seen, ((dedupByKey ms seen).map key).Nodup ∧
      ∀ k ∈ (dedupByKey ms seen).map key, k ∉ seen := by
  intro ms
  induction ms with
  | nil => intro seen; simp [dedupByKey]
  | cons m ms ih =>
    intro seen
    simp only [dedupByKey]
    split
    · exact ih seen
    · rename_i hnot
      obtain ⟨h1, h2⟩ := ih (key m :: seen)
      refine ⟨List.nodup_cons.mpr ⟨fun hk => ?_, h1⟩, ?_⟩
      · exact (h2 _ hk) (List.mem_cons_self _ _)
      · intro k hk
        simp only [List.map_cons, List.mem_cons] at hk
        rcases hk with rfl | hk
        · exact hnot
        · intro hs
          exact (h2 _ hk) (List.mem_cons_of_mem _ hs)

theorem dedupByKey_sublist : ∀ ms seen, dedupByKey ms seen ⊆ ms := by
  intro ms
  induction ms with
  | nil => intro seen; simp [dedupByKey]
  | cons m ms ih =>
    intro seen
    simp only [dedupByKey]
    split
    · exact fun x hx => List.mem_cons_of_mem _ (ih seen hx)
    · intro x hx
      rcases List.mem_cons.mp hx with rfl | hx'
      · exact List.mem_cons_self _ _
      · exact List.mem_cons_of_mem _ (ih _ hx')

/-- Shape of matches of patterns 1–5: not a range, and the article is a
nonempty run of digits. -/
def SingleShape (r : RawMatch) : Prop :=
  r.isRange = false ∧ r.article ≠ [] ∧ ∀ c ∈ r.article, isPyDigit c

/-- Shape of matches of pattern 6: a range whose article is the two digit
endpoints joined by an ASCII hyphen. -/
def RangeShape (r : RawMatch) : Prop :=
  r.isRange = true ∧ ∃ d1 d2 : Str, d1 ≠ [] ∧ d2 ≠ [] ∧
    (∀ c ∈ d1, isPyDigit c) ∧ (∀ c ∈ d2, isPyDigit c) ∧
    r.article = d1 ++ '-' :: d2

theorem matchP1_shape {l : Str} {r : RawMatch} (h : matchP1 l = some r) :
    SingleShape r := by
  simp only [matchP1, bind, Option.bind_eq_some] at h
  obtain ⟨r1, h1, h⟩ := h
  obtain ⟨⟨d1, r2⟩, h2, h⟩ := h
  obtain ⟨r3, h3, h⟩ := h
  obtain ⟨⟨d2, r4⟩, h4, h⟩ := h
  obtain ⟨r5, h5, h⟩ := h
  obtain ⟨hne, hdig⟩ := digits1_digits h2
  split at h
  · split at h
    · cases h; exact ⟨rfl, hne, hdig⟩
    · cases h
  · cases h

theorem matchP2_shape {l : Str} {r : RawMatch} (h : matchP2 l = some r) :
    SingleShape r := by
  simp only [matchP2, bind, Option.bind_eq_some] at h
  obtain ⟨r1, h1, h⟩ := h
  obtain ⟨⟨d1, r2⟩, h2, h⟩ := h
  obtain ⟨r3, h3, h⟩ := h
  obtain ⟨⟨d2, r4⟩, h4, h⟩ := h
  obtain ⟨hne, hdig⟩ := digits1_digits h2
  cases h
  exact ⟨rfl, hne, hdig⟩

theorem matchP3_shape {l : Str} {r : RawMatch} (h : matchP3 l = some r) :
    SingleShape r := by
  simp only [matchP3, bind, Option.bind_eq_some] at h
  obtain ⟨r1, h1, h⟩ := h
  obtain ⟨⟨d1, r2⟩, h2, h⟩ := h
  obtain ⟨r3, h3, h⟩ := h
  obtain ⟨⟨d2, r4⟩, h4, h⟩ := h
  obtain ⟨hne, hdig⟩ := digits1_digits h2
  split at h
  · split at h
    · split at h
      · cases h; exact ⟨rfl, hne, hdig⟩
      · cases h; exact ⟨rfl, hne, hdig⟩
    · cases h; exact ⟨rfl, hne, hdig⟩
  · cases h; exact ⟨rfl, hne, hdig⟩

theorem matchP4_shape {l : Str} {r : RawMatch} (h : matchP4 l = some r) :
    SingleShape r := by
  simp only [matchP4, bind, Option.bind_eq_some] at h
  obtain ⟨⟨d1, r1⟩, h1, h⟩ := h
  obtain ⟨r2, h2, h⟩ := h
  obtain ⟨r3, h3, h⟩ := h
  obtain ⟨hne, hdig⟩ := digits1_digits h1
  split at h
  · split at h
    · cases h; exact ⟨rfl, hne, hdig⟩
    · cases h
  · cases h

theorem matchP5_shape {l : Str} {r : RawMatch} (h : matchP5 l = some r) :
    SingleShape r := by
  simp only [matchP5, bind, Option.bind_eq_some] at h
  obtain ⟨r1, h1, h⟩ := h
  obtain ⟨⟨d1, r2⟩, h2, h⟩ := h
  obtain ⟨hne, hdig⟩ := digits1_digits h2
  split at h
  · split at h
    · cases h
    · cases h; exact ⟨rfl, hne, hdig⟩
  · cases h; exact ⟨rfl, hne, hdig⟩

theorem matchP6_shape {l : Str} {r : RawMatch} (h : matchP6 l = some r) :
    RangeShape r := by
  simp only [matchP6, bind, Option.bind_eq_some] at h
  obtain ⟨r1, h1, h⟩ := h
  obtain ⟨r2, h2, h⟩ := h
  obtain ⟨⟨d1, r3⟩, h3, h⟩ := h
  obtain ⟨hne1, hdig1⟩ := digits1_digits h3
  split at h
  · split at h
    · simp only [bind, Option.bind_eq_some] at h
      obtain ⟨⟨d2, r5⟩, h5, h⟩ := h
      obtain ⟨hne2, hdig2⟩ := digits1_digits h5
      cases h
      exact ⟨rfl, d1, d2, hne1, hne2, hdig1, hdig2, rfl⟩
    · cases h
  · cases h

theorem findIterAux_prop {P : RawMatch → Prop} {m : Str → Option RawMatch}
    (hm : ∀ l r, m l = some r → P r) :
    ∀ fuel l, ∀ x ∈ findIterAux m fuel l, P x := by
  intro fuel
  induction fuel with
  | zero => intro l x hx; simp [findIterAux] at hx
  | succ n ih =>
    intro l x hx
    match l with
    | [] => simp [findIterAux] at hx
    | a :: rest =>
      simp only [findIterAux] at hx
      split at hx
      · rename_i r hml
        rcases List.mem_cons.mp hx with rfl | hx'
        · exact hm _ _ hml
        · exact ih _ _ hx'
      · exact ih _ _ hx

theorem mem_allRawMatches_shape {text : Str} {x : RawMatch}
    (hx : x ∈ allRawMatches text) : SingleShape x ∨ RangeShape x := by
  simp only [allRawMatches, patterns, List.mem_flatten, List.map_cons,
    List.map_nil, List.mem_cons, List.not_mem_nil, or_false] at hx
  obtain ⟨l, hl, hxl⟩ := hx
  rcases hl with rfl | rfl | rfl | rfl | rfl | rfl
  · exact Or.inl (findIterAux_prop (fun _ _ => matchP1_shape) _ _ _ hxl)
  · exact Or.inl (findIterAux_prop (fun _ _ => matchP2_shape) _ _ _ hxl)
  · exact Or.inl (findIterAux_prop (fun _ _ => matchP3_shape) _ _ _ hxl)
  · exact Or.inl (findIterAux_prop (fun _ _ => matchP4_shape) _ _ _ hxl)
  · exact Or.inl (findIterAux_prop (fun _ _ => matchP5_shape) _ _ _ hxl)
  · exact Or.inr (findIterAux_prop (fun _ _ => matchP6_shape) _ _ _ hxl)

theorem splitDashAux_noDash {d : Str} (hd : '-' ∉ d) :
    ∀ acc, splitDashAux d acc = [acc.reverse ++ d] := by
  induction d with
  | nil => intro acc; simp [splitDashAux]
  | cons c t ih =>
    intro acc
    have hc : ¬ c = '-' := fun h => hd (h ▸ List.mem_cons_self _ _)
    have ht : '-' ∉ t := fun h => hd (List.mem_cons_of_mem _ h)
    simp [splitDashAux, hc, ih ht]

theorem splitDash_pair {d1 d2 : Str} (h1 : '-' ∉ d1) (h2 : '-' ∉ d2) :
    splitDash (d1 ++ '-' :: d2) = [d1, d2] := by
  have aux : ∀ acc, splitDashAux (d1 ++ '-' :: d2) acc =
      (acc.reverse ++ d1) :: [d2] := by
    induction d1 with
    | nil =>
      intro acc
      simp [splitDashAux, splitDashAux_noDash h2]
    | cons c t ih =>
      intro acc
      have hc : ¬ c = '-' := fun h => h1 (h ▸ List.mem_cons_self _ _)
      have ht : '-' ∉ t := fun h => h1 (List.mem_cons_of_mem _ h)
      simp [splitDashAux, hc, ih ht]
  simpa [splitDash] using aux []

theorem noDash_of_digits {d : Str} (hd : ∀ c ∈ d, isPyDigit c) : '-' ∉ d :=
  fun hm => absurd (hd '-' hm) (by decide)

theorem mem_extract_citations {valid : List Str} {text : Str} {c : Citation}
    (hc : c ∈ extract_citations valid text) :
    ∃ m ∈ allRawMatches text, c = mkCitation valid m := by
  rw [extract_citations, extractLoop_eq_dedup] at hc
  obtain ⟨m, hm, rfl⟩ := List.mem_map.mp hc
  exact ⟨m, dedupByKey_sublist _ _ hm, rfl⟩

/-- C2: `extract_citations` yields at most one Citation per distinct
`(article, clause, letter)` key; the kept Citation is the one built from
the earliest match in the fixed pattern-order match stream (first
occurrence wins); and the same reference fed in two textual forms
(`მუხლი 5` and `5-ე მუხლი`) yields exactly one Citation. -/
theorem extract_citations_dedup_first_wins (valid : List Str) (text : Str) :
    ((extract_citations valid text).map citationKey).Nodup ∧
    extract_citations valid text =
      (dedupByKey (allRawMatches text) []).map (mkCitation valid) ∧
    (extract_citations ["5".data] "მუხლი 5 და 5-ე მუხლი".data).length = 1 := by
  refine ⟨?_, extractLoop_eq_dedup valid _ [], by decide⟩
  have hkey : ∀ m, citationKey (mkCitation valid m) = key m := by
    intro m; rfl
  rw [extract_citations, extractLoop_eq_dedup, List.map_map]
  have : (citationKey ∘ mkCitation valid) = key := funext hkey
  rw [this]
  exact (dedupByKey_keys_nodup (allRawMatches text) []).1

/-- C3: every extracted range citation `A-B` is valid iff both endpoint
strings are individually in the registry; validity of a range depends on
nothing but the two endpoints (articles strictly between them are never
consulted). -/
theorem extracted_range_valid_iff_endpoints (valid : List Str) (text : Str)
    (c : Citation) (hc : c ∈ extract_citations valid text)
    (hd : '-' ∈ c.article) :
    ∃ A B : Str, A ≠ [] ∧ B ≠ [] ∧
      (∀ ch ∈ A, isPyDigit ch) ∧ (∀ ch ∈ B, isPyDigit ch) ∧
      c.article = A ++ '-' :: B ∧
      (c.is_valid = true ↔ A ∈ valid ∧ B ∈ valid) := by
  obtain ⟨m, hm, rfl⟩ := mem_extract_citations hc
  rcases mem_allRawMatches_shape hm with ⟨_, _, hdig⟩ |
    ⟨hr, d1, d2, hne1, hne2, hdig1, hdig2, heq⟩
  · exact absurd (hdig '-' hd) (by decide)
  · refine ⟨d1, d2, hne1, hne2, hdig1, hdig2, ?_, ?_⟩
    · simpa [mkCitation] using heq
    · simp only [mkCitation, citationValid, hr, if_true, heq,
        splitDash_pair (noDash_of_digits hdig1) (noDash_of_digits hdig2)]
      simp

/-- A closed instance of the range-citation law at a concrete text and
registry, exercising every hypothesis of the theorem. -/
theorem extracted_range_valid_iff_endpoints_witness :
    ∃ A B : Str, A ≠ [] ∧ B ≠ [] ∧
      (∀ ch ∈ A, isPyDigit ch) ∧ (∀ ch ∈ B, isPyDigit ch) ∧
      ("168-170".data : Str) = A ++ '-' :: B ∧
      (true = true ↔ A ∈ ["168".data, "170".data] ∧ B ∈ ["168".data, "170".data]) := by
  have h := extracted_range_valid_iff_endpoints
    ["168".data, "170".data] "მუხლები 168-170".data
    { raw_text := "მუხლები 168-170".data, article := "168-170".data,
      clause := none, letter := none, is_valid := true,
      matsne_url := some
        ("https://matsne.gov.ge/ka/document/view/1043717#ARTICLE_168-170".data) }
    (by decide) (by decide)
  simpa using h

/-- C4: a missing or unparsable registry file yields the empty
valid-article set, and extraction over the empty set marks every returned
Citation invalid and attaches no link (extraction itself is total and
still returns a list). -/
theorem empty_registry_all_invalid :
    load_article_index (Except.error ()) = [] ∧
    ∀ (text : Str) (c : Citation),
      c ∈ extract_citations (load_article_index (Except.error ())) text →
      c.is_valid = false ∧ c.matsne_url = none := by
  refine ⟨rfl, ?_⟩
  intro text c hc
  simp only [load_article_index] at hc ⊢
  obtain ⟨m, _, rfl⟩ := mem_extract_citations hc
  have hval : citationValid [] m = false := by
    unfold citationValid
    split
    · split <;> simp
    · simp
  constructor
  · simpa [mkCitation] using hval
  · simp [mkCitation, hval]

/-- A closed instance of the degraded-registry law: extracting from
`მუხლი 166` with the failed-load registry yields an invalid, linkless
citation. -/
theorem empty_registry_all_invalid_witness :
    ({ raw_text := "მუხლი 166".data, article := "166".data, clause := none,
       letter := none, is_valid := false, matsne_url := none } : Citation).is_valid
        = false ∧
    ({ raw_text := "მუხლი 166".data, article := "166".data, clause := none,
       letter := none, is_valid := false, matsne_url := none } : Citation).matsne_url
        = none :=
  empty_registry_all_invalid.2 "მუხლი 166".data _ (by decide)

/-- C9: a single full dotted reference `მუხლი 168.1.ა` produces two
Citations over the same span — the specific `(168, 1, ა)` one from
pattern 1 and the `(168, 1, none)` one from pattern 2 rematching the same
characters — because deduplication only collapses identical keys. -/
theorem dotted_reference_yields_two_citations :
    extract_citations ["168".data] "მუხლი 168.1.ა".data =
      [ { raw_text := "მუხლი 168.1.ა".data, article := "168".data,
          clause := some "1".data, letter := some "ა".data, is_valid := true,
          matsne_url := some
            ("https://matsne.gov.ge/ka/document/view/1043717#ARTICLE_168_1_ა".data) },
        { raw_text := "მუხლი 168.1".data, article := "168".data,
          clause := some "1".data, letter := none, is_valid := true,
          matsne_url := some
            ("https://matsne.gov.ge/ka/document/view/1043717#ARTICLE_168_1".data) } ] := by
  decide

end CitationExtractor

/-- Python `str.lower` on the character ranges the keyword logic can
meet: ASCII, Latin-1 uppercase (the mojibake literals of
`dispute_service.py` live there) and Georgian Mtavruli.  All other
characters, including Mkhedruli Georgian, are fixed points of `lower`. -/
def pyLower (c : Char) : Char :=
  let v := c.toNat
  if 'A' ≤ c ∧ c ≤ 'Z' then Char.ofNat (v + 32)
  else if 0xC0 ≤ v ∧ v ≤ 0xDE ∧ v ≠ 0xD7 then Char.ofNat (v + 32)
  else if 0x1C90 ≤ v ∧ v ≤ 0x1CBA then Char.ofNat (v - 0xBC0)
  else if v = 0x1CBD ∨ v = 0x1CBE ∨ v = 0x1CBF then Char.ofNat (v - 0xBC0)
  else c

/-- Python `message.lower()`. -/
def lowerStr (s : Str) : Str := s.map pyLower

/-- Python substring test `needle in hay`. -/
def subIn (needle : Str) : Str → Bool
  | [] => needle.isEmpty
  | c :: t => needle.isPrefixOf (c :: t) || subIn needle t

namespace Orchestrator

/-- `QueryMode` values `auto_classify` can return. -/
inductive QueryMode where
  | tax
  | dispute
  | document
deriving DecidableEq, Repr

/-- `Orchestrator.TAX_KEYWORDS`. -/
def TAX_KEYWORDS : List Str :=
  ["მუხლი".data, "კოდექსი".data, "განაკვეთი".data, "გადასახადი".data,
   "დღგ".data, "საშემოსავლო".data, "მოგება".data, "საგადასახადო კოდექსი".data]

/-- `Orchestrator.DISPUTE_KEYWORDS`. -/
def DISPUTE_KEYWORDS : List Str :=
  ["დოკუმენტის #".data, "დავების საბჭო".data, "ფინანსთა სამინისტრო".data,
   "ფინანსთა სამინისტროს დავის გადაწყვეტილება".data, "საჩივარი".data,
   "დავის საგანი".data, "დარიცხული თანხა".data, "გასაჩივრებული".data,
   "სადავო საკითხი".data, "საბჭოს დასკვნა".data]

/-- `Orchestrator.DOCUMENT_KEYWORDS`. -/
def DOCUMENT_KEYWORDS : List Str :=
  ["ხელშეკრულება".data, "დოკუმენტი".data, "შაბლონი".data]

/-- `sum(1 for keyword in KEYWORDS if keyword.lower() in message_lower)`. -/
def countMatches (keywords : List Str) (messageLower : Str) : Nat :=
  (keywords.filter (fun kw => subIn (lowerStr kw) messageLower)).length

/-- `Orchestrator.auto_classify`. -/
def auto_classify (message : Str) : QueryMode :=
  let ml := lowerStr message
  let dispute_matches := countMatches DISPUTE_KEYWORDS ml
  let document_matches := countMatches DOCUMENT_KEYWORDS ml
  let tax_matches := countMatches TAX_KEYWORDS ml
  if 0 < dispute_matches ∧ tax_matches ≤ dispute_matches then .dispute
  else if 0 < document_matches then .document
  else if 0 < tax_matches then .tax
  else .tax

/-- C6: the auto-mode priority rule — dispute wins ties with tax; with no
dispute matches, document keywords decide next, then tax keywords, and
with no match at all the default is the tax domain; in particular one
dispute keyword plus one tax keyword classifies as dispute. -/
theorem auto_classify_priority (message : Str) :
    (0 < countMatches DISPUTE_KEYWORDS (lowerStr message) →
      countMatches TAX_KEYWORDS (lowerStr message) ≤
        countMatches DISPUTE_KEYWORDS (lowerStr message) →
      auto_classify message = QueryMode.dispute) ∧
    (countMatches DISPUTE_KEYWORDS (lowerStr message) = 0 →
      0 < countMatches DOCUMENT_KEYWORDS (lowerStr message) →
      auto_classify message = QueryMode.document) ∧
    (countMatches DISPUTE_KEYWORDS (lowerStr message) = 0 →
      countMatches DOCUMENT_KEYWORDS (lowerStr message) = 0 →
      0 < countMatches TAX_KEYWORDS (lowerStr message) →
      auto_classify message = QueryMode.tax) ∧
    (countMatches DISPUTE_KEYWORDS (lowerStr message) = 0 →
      countMatches DOCUMENT_KEYWORDS (lowerStr message) = 0 →
      countMatches TAX_KEYWORDS (lowerStr message) = 0 →
      auto_classify message = QueryMode.tax) ∧
    (countMatches DISPUTE_KEYWORDS (lowerStr message) = 1 →
      countMatches TAX_KEYWORDS (lowerStr message) = 1 →
      auto_classify message = QueryMode.dispute) := by
  simp only [auto_classify]
  refine ⟨?_, ?_, ?_, ?_, ?_⟩ <;> intros <;> split_ifs <;> first
    | rfl
    | omega

/-- A closed instance of the tie-break rule: the query
`საჩივარი მუხლი` contains exactly one dispute keyword and one tax
keyword and classifies as dispute. -/
theorem auto_classify_priority_witness :
    auto_classify "საჩივარი მუხლი".data = QueryMode.dispute :=
  (auto_classify_priority "საჩივარი მუხლი".data).2.2.2.2 (by decide) (by decide)

end Orchestrator

namespace DisputeService

/-- The fixed localized error answer of `_generate_answer` (the literal
appears in the source in a Latin-1 mojibake rendering of Georgian; it is
reproduced here byte-for-byte as Python reads it). -/
def errorAnswer : Str :=
  "ÕÔà ÛÝîÔàîÓÐ ÞÐáãîØá ÒÔÜÔàÐêØÐ. Ò×îÝÕ× áêÐÓÝ× ÛÝÒÕØÐÜÔÑØ×.".data

/-- Models `DisputeService._generate_answer`.  The arguments are the
outcomes of awaiting `gemini_client.generate_response(prompt)` and — when
a claude client is configured (`secondary = some _`) — of awaiting
`claude_client.generate_response(prompt)`; `Except.error` models a raised
exception.  The result carries `(answer, model_used)` plus the number of
fallback calls performed so the attempt count is observable.  The
function is total: no branch re-raises. -/
def generate_answer (primary : Except Unit Str)
    (secondary : Option (Except Unit Str)) : Str × Str × Nat :=
  match primary with
  | .ok a => (a, "gemini-pro".data, 0)
  | .error _ =>
    match secondary with
    | some (.ok a) => (a, "claude-3-sonnet".data, 1)
    | some (.error _) => (errorAnswer, "error".data, 1)
    | none => (errorAnswer, "error".data, 0)

/-- C5: when the primary model call raises, exactly one fallback call is
attempted iff a secondary client is configured; when the fallback also
raises or none is configured, the fixed localized error text with model
marker `error` is returned; a primary success returns immediately with no
fallback call.  Totality of `generate_answer` models that the generation
step never propagates an exception. -/
theorem generate_answer_fallback (p : Except Unit Str)
    (s : Option (Except Unit Str)) :
    (∀ e, p = Except.error e → s.isSome →
      (generate_answer p s).2.2 = 1) ∧
    (∀ e, p = Except.error e → s = none →
      generate_answer p s = (errorAnswer, "error".data, 0)) ∧
    (∀ e e', p = Except.error e → s = some (Except.error e') →
      generate_answer p s = (errorAnswer, "error".data, 1)) ∧
    (∀ e a, p = Except.error e → s = some (Except.ok a) →
      generate_answer p s = (a, "claude-3-sonnet".data, 1)) ∧
    (∀ a, p = Except.ok a →
      generate_answer p s = (a, "gemini-pro".data, 0)) := by
  refine ⟨?_, ?_, ?_, ?_, ?_⟩
  · intro e hp hs
    subst hp
    cases s with
    | none => simp at hs
    | some x => cases x <;> rfl
  · intro e hp hs; subst_vars; rfl
  · intro e e' hp hs; subst_vars; rfl
  · intro e a hp hs; subst_vars; rfl
  · intro a hp; subst_vars; rfl

/-- A closed instance of the fallback law: primary and secondary both
raise, so the fixed error answer with marker `error` is returned after
one fallback attempt. -/
theorem generate_answer_fallback_witness :
    generate_answer (Except.error ()) (some (Except.error ())) =
      (errorAnswer, "error".data, 1) :=
  (generate_answer_fallback (Except.error ()) (some (Except.error ()))).2.2.1
    () () rfl rfl

/-- The literal keyword of `_extract_tax_articles` as it stands in the
source (a Latin-1 mojibake rendering of the Georgian word). -/
def kMoj : Str := "ÛãîÚØ".data

/-- The character class `[Ð-ð]` of `_extract_tax_articles` (U+00D0..U+00F0). -/
def isMojLetter (c : Char) : Bool :=
  0xD0 ≤ c.toNat && c.toNat ≤ 0xF0

/-- Greedy optional group `(?:\.\d+)?` extending a captured fragment. -/
def optDotDigits (frag : Str) (r : Str) : Str × Str :=
  match r with
  | '.' :: rest =>
    match digits1 rest with
    | some (d2, r') => (frag ++ '.' :: d2, r')
    | none => (frag, r)
  | _ => (frag, r)

/-- Greedy optional group `(?:\.[Ð-ð])?` extending a captured fragment. -/
def optDotMojLetter (frag : Str) (r : Str) : Str × Str :=
  match r with
  | '.' :: c :: rest =>
    if isMojLetter c then (frag ++ ['.', c], rest) else (frag, r)
  | _ => (frag, r)

/-- The first pattern of `_extract_tax_articles`,
`ÛãîÚØ\s+(\d+(?:\.\d+)?(?:\.[Ð-ð])?)`, anchored; returns the captured
group and the remainder after the match. -/
def matchDisp1 (l : Str) : Option (Str × Str) := do
  let r1 ← stripLit kMoj l
  let sp := r1.takeWhile isPySpace
  if sp.isEmpty then none
  else do
    let (d1, r2) ← digits1 (r1.dropWhile isPySpace)
    let (f2, r3) := optDotDigits d1 r2
    let (f3, r4) := optDotMojLetter f2 r3
    some (f3, r4)

/-- The alternation head `(?:article|ÛãîÚØ|AB\.)` of the second pattern;
the three alternatives start with pairwise distinct characters, so
first-match-wins is exact. -/
def altHead (l : Str) : Option Str :=
  match stripLit "article".data l with
  | some r => some r
  | none =>
    match stripLit kMoj l with
    | some r => some r
    | none => stripLit "AB.".data l

/-- The second pattern of `_extract_tax_articles`,
`(?:article|ÛãîÚØ|AB\.)\s*(\d+)`, anchored (it is run over the lowered
text). -/
def matchDisp2 (l : Str) : Option (Str × Str) := do
  let r1 ← altHead l
  let (d1, r2) ← digits1 (dropSpaces r1)
  some (d1, r2)

/-- `re.findall`: scan, collect group 1 of each match, resume after each
match's end. -/
def findAllAux (m : Str → Option (Str × Str)) : Nat → Str → List Str
  | 0, _ => []
  | _ + 1, [] => []
  | fuel + 1, l@(_ :: t) =>
    match m l with
    | some (frag, rest) => frag :: findAllAux m fuel rest
    | none => findAllAux m fuel t

/-- All captured groups of one pattern over `text`, in textual order. -/
def findAll (m : Str → Option (Str × Str)) (text : Str) : List Str :=
  findAllAux m text.length text

/-- First-occurrence deduplication by string equality, the deterministic
stand-in for Python's `list(set(...))` (whose order is unspecified; no
claim depends on the order of tied keys). -/
def dedupFirstAux : List Str → List Str → List Str
  | [], _ => []
  | a :: t, seen =>
    if a ∈ seen then dedupFirstAux t seen
    else a :: dedupFirstAux t (a :: seen)

/-- Deduplicate keeping first occurrences. -/
def dedupFirst (l : List Str) : List Str := dedupFirstAux l []

/-- The sort key `float(re.search(r'\d+', x).group())`: the value of the
first digit run in the fragment (every extracted fragment starts with a
digit, so this is its leading numeric value). -/
def digitRunVal (s : Str) : Nat :=
  ((s.dropWhile (fun c => !isPyDigit c)).takeWhile isPyDigit).foldl
    (fun n c => 10 * n + (c.toNat - 48)) 0

/-- Whether `re.search(r'\d+', x)` succeeds; when it fails for any
element, the `except: pass` of the source skips sorting entirely and the
deduplicated list is returned unsorted. -/
def hasDigit (s : Str) : Bool := s.any isPyDigit

instance : IsTotal Str (fun a b => digitRunVal a ≤ digitRunVal b) :=
  ⟨fun a b => Nat.le_total (digitRunVal a) (digitRunVal b)⟩

instance : IsTrans Str (fun a b => digitRunVal a ≤ digitRunVal b) :=
  ⟨fun _ _ _ h1 h2 => Nat.le_trans h1 h2⟩

/-- `DisputeService._extract_tax_articles`. -/
def extract_tax_articles (text : Str) : List Str :=
  let m1 := findAll matchDisp1 text
  let m2 := findAll matchDisp2 (lowerStr text)
  let articles := dedupFirst (m1 ++ m2)
  if articles.all hasDigit then
    List.insertionSort (fun a b => digitRunVal a ≤ digitRunVal b) articles
  else articles

theorem findAllAux_prop {P : Str → Prop} {m : Str → Option (Str × Str)}
    (hm : ∀ l f r, m l = some (f, r) → P f) :
    ∀ fuel l, ∀ x ∈ findAllAux m fuel l, P x := by
  intro fuel
  induction fuel with
  | zero => intro l x hx; simp [findAllAux] at hx
  | succ n ih =>
    intro l x hx
    match l with
    | [] => simp [findAllAux] at hx
    | a :: rest =>
      simp only [findAllAux] at hx
      split at hx
      · rename_i f r hml
        rcases List.mem_cons.mp hx with rfl | hx'
        · exact hm _ _ _ hml
        · exact ih _ _ hx'
      · exact ih _ _ hx

/-- Fragments start with a digit. -/
def StartsDigit (s : Str) : Prop := ∃ c cs, s = c :: cs ∧ isPyDigit c

theorem optDotDigits_extends (frag r : Str) :
    ∃ t, (optDotDigits frag r).1 = frag ++ t := by
  unfold optDotDigits
  split
  · split
    · exact ⟨_, rfl⟩
    · exact ⟨[], by simp⟩
  · exact ⟨[], by simp⟩

theorem optDotMojLetter_extends (frag r : Str) :
    ∃ t, (optDotMojLetter frag r).1 = frag ++ t := by
  unfold optDotMojLetter
  split
  · split
    · exact ⟨_, rfl⟩
    · exact ⟨[], by simp⟩
  · exact ⟨[], by simp⟩

theorem matchDisp1_startsDigit {l f r : Str}
    (h : matchDisp1 l = some (f, r)) : StartsDigit f := by
  simp only [matchDisp1, bind, Option.bind_eq_some] at h
  obtain ⟨r1, h1, h⟩ := h
  split at h
  · cases h
  · simp only [bind, Option.bind_eq_some] at h
    obtain ⟨⟨d1, r2⟩, h2, h⟩ := h
    obtain ⟨hne, hdig⟩ := digits1_digits h2
    obtain ⟨t2, ht2⟩ := optDotDigits_extends d1 r2
    obtain ⟨t3, ht3⟩ := optDotMojLetter_extends (optDotDigits d1 r2).1
      (optDotDigits d1 r2).2
    match d1, hne with
    | c :: cs, _ =>
      cases h
      refine ⟨c, cs ++ t2 ++ t3, ?_, hdig c (List.mem_cons_self _ _)⟩
      rw [ht3, ht2]
      simp

theorem matchDisp2_startsDigit {l f r : Str}
    (h : matchDisp2 l = some (f, r)) : StartsDigit f := by
  simp only [matchDisp2, bind, Option.bind_eq_some] at h
  obtain ⟨r1, h1, h⟩ := h
  obtain ⟨⟨d1, r2⟩, h2, h⟩ := h
  obtain ⟨hne, hdig⟩ := digits1_digits h2
  match d1, hne with
  | c :: cs, _ =>
    cases h
    exact ⟨c, cs, rfl, hdig c (List.mem_cons_self _ _)⟩

theorem dedupFirstAux_nodup :
    ∀ l seen, (dedupFirstAux l seen).Nodup ∧
      ∀ x ∈ dedupFirstAux l seen, x ∉ seen := by
  intro l
  induction l with
  | nil => intro seen; simp [dedupFirstAux]
  | cons a t ih =>
    intro seen
    simp only [dedupFirstAux]
    split
    · exact ih seen
    · rename_i hnot
      obtain ⟨h1, h2⟩ := ih (a :: seen)
      refine ⟨List.nodup_cons.mpr ⟨fun hk => ?_, h1⟩, ?_⟩
      · exact (h2 _ hk) (List.mem_cons_self _ _)
      · intro x hx
        rcases List.mem_cons.mp hx with rfl | hx'
        · exact hnot
        · intro hs
          exact (h2 _ hx') (List.mem_cons_of_mem _ hs)

theorem dedupFirstAux_subset :
    ∀ l seen, dedupFirstAux l seen ⊆ l := by
  intro l
  induction l with
  | nil => intro seen; simp [dedupFirstAux]
  | cons a t ih =>
    intro seen
    simp only [dedupFirstAux]
    split
    · exact fun x hx => List.mem_cons_of_mem _ (ih seen hx)
    · intro x hx
      rcases List.mem_cons.mp hx with rfl | hx'
      · exact List.mem_cons_self _ _
      · exact List.mem_cons_of_mem _ (ih _ hx')

/-- C7: the extracted article list is deduplicated by string equality and
sorted ascending by the leading numeric value of each fragment; every
fragment begins with a digit (both capture groups start with `\d+`), so
the non-numeric-leading case the source's `try/except` shields against is
vacuous and the sort never errors out. -/
theorem extract_tax_articles_sorted_nodup (text : Str) :
    (extract_tax_articles text).Nodup ∧
    List.Sorted (fun a b => digitRunVal a ≤ digitRunVal b)
      (extract_tax_articles text) ∧
    ∀ a ∈ extract_tax_articles text, StartsDigit a := by
  have hdigits : ∀ a ∈ dedupFirst (findAll matchDisp1 text ++
      findAll matchDisp2 (lowerStr text)), StartsDigit a := by
    intro a ha
    have := dedupFirstAux_subset _ [] ha
    rcases List.mem_append.mp this with h | h
    · exact findAllAux_prop (fun _ _ _ => matchDisp1_startsDigit) _ _ _ h
    · exact findAllAux_prop (fun _ _ _ => matchDisp2_startsDigit) _ _ _ h
  have hnodup : (dedupFirst (findAll matchDisp1 text ++
      findAll matchDisp2 (lowerStr text))).Nodup :=
    (dedupFirstAux_nodup _ []).1
  have hall : (dedupFirst (findAll matchDisp1 text ++
      findAll matchDisp2 (lowerStr text))).all hasDigit = true := by
    rw [List.all_eq_true]
    intro a ha
    obtain ⟨c, cs, rfl, hc⟩ := hdigits a ha
    simp [hasDigit, hc]
  have hperm := List.perm_insertionSort
    (fun a b : Str => digitRunVal a ≤ digitRunVal b)
    (dedupFirst (findAll matchDisp1 text ++ findAll matchDisp2 (lowerStr text)))
  rw [extract_tax_articles]
  simp only [hall, if_true]
  refine ⟨hperm.nodup_iff.mpr hnodup, ?_, ?_⟩
  · exact List.sorted_insertionSort _ _
  · intro a ha
    exact hdigits a (hperm.mem_iff.mp ha)

/-- A closed instance of the article-sorting law: in the list extracted
from a text holding articles 168 and 5, the fragment `5` occurs and
starts with a digit (discharging the membership hypothesis at a concrete
input). -/
theorem extract_tax_articles_sorted_nodup_witness :
    StartsDigit "5".data :=
  (extract_tax_articles_sorted_nodup "ÛãîÚØ 168 article 5".data).2.2
    "5".data (by decide)

end DisputeService

namespace VectorStore

/-- Exact rational scores.  Python's float arithmetic is modelled by
exact fractions kept unnormalized (numerator over positive denominator),
so that every comparison reduces in the kernel; the denominators stay
positive along all code paths because every divisor the source uses is
guarded to be positive. -/
structure Frac where
  num : Int
  den : Nat
deriving DecidableEq, Repr

/-- Embed an integer. -/
def Frac.ofInt (n : Int) : Frac := ⟨n, 1⟩

/-- Addition. -/
def Frac.add (a b : Frac) : Frac :=
  ⟨a.num * b.den + b.num * a.den, a.den * b.den⟩

/-- Subtraction. -/
def Frac.sub (a b : Frac) : Frac :=
  ⟨a.num * b.den - b.num * a.den, a.den * b.den⟩

/-- Multiplication. -/
def Frac.mul (a b : Frac) : Frac := ⟨a.num * b.num, a.den * b.den⟩

/-- Division (the source only divides by strictly positive scores). -/
def Frac.div (a b : Frac) : Frac :=
  if 0 ≤ b.num then ⟨a.num * b.den, a.den * b.num.toNat⟩
  else ⟨-(a.num * b.den), a.den * (-b.num).toNat⟩

/-- Comparison by cross-multiplication. -/
def Frac.lt (a b : Frac) : Bool := a.num * b.den < b.num * a.den

/-- Comparison by cross-multiplication. -/
def Frac.le (a b : Frac) : Bool := a.num * b.den ≤ b.num * a.den

/-- `numpy`-style max of a score array (only consulted on nonempty rows
by the source; the empty case is given the junk value 0). -/
def maxFrac : List Frac → Frac
  | [] => Frac.ofInt 0
  | a :: t => t.foldl (fun m x => if Frac.lt m x then x else m) a

/-- The `Document` pydantic model of vector_store.py; the open metadata
map is carried as an association list of string keys and values (the
fields the filters consult). -/
structure Document where
  id : Str
  content : Str
  metadata : List (Str × Str)
  embedding : Option (List Frac)
deriving DecidableEq, Repr

/-- The `SearchResult` pydantic model. -/
structure SearchResult where
  document : Document
  score : Frac
  match_type : Str
deriving DecidableEq, Repr

/-- The in-memory state of a `VectorStore`: the FAISS row vectors, the
parallel document list, the tokenized corpus and the BM25 object.
`rank_bm25.BM25Okapi`'s precomputed statistics are a pure function of the
tokenized corpus it was built from, so the BM25 object is carried as that
corpus; its scoring function is an explicit parameter of `bm25_search`. -/
structure State where
  faiss : List (List Frac)
  documents : List Document
  tokenized_corpus : List (List Str)
  bm25 : Option (List (List Str))
deriving DecidableEq, Repr

/-- The state `__init__` builds when nothing can be loaded
(`_initialize_empty_index`). -/
def emptyState : State :=
  { faiss := [], documents := [], tokenized_corpus := [], bm25 := none }

/-- The character class of `_tokenize_text`:
`[Ⴀ-ჿa-z0-9]`. -/
def isTokenChar (c : Char) : Bool :=
  (0x10A0 ≤ c.toNat && c.toNat ≤ 0x10FF) ||
  ('a' ≤ c && c ≤ 'z') || c.isDigit

/-- Maximal token runs of the lowered text. -/
def tokenizeAux : Nat → Str → List Str
  | 0, _ => []
  | _ + 1, [] => []
  | fuel + 1, l@(c :: t) =>
    if isTokenChar c then
      l.takeWhile isTokenChar :: tokenizeAux fuel (l.dropWhile isTokenChar)
    else tokenizeAux fuel t

/-- `VectorStore._tokenize_text`. -/
def tokenize_text (s : Str) : List Str :=
  tokenizeAux s.length (lowerStr s)

/-- Python `dict.get`. -/
def metaGet (md : List (Str × Str)) (k : Str) : Option Str :=
  (md.find? (fun p => p.1 == k)).map (fun p => p.2)

/-- The metadata filter
`all(doc.metadata.get(k) == v for k, v in filter_metadata.items())`. -/
def passesFilter (fm : Option (List (Str × Str))) (d : Document) : Bool :=
  match fm with
  | none => true
  | some fs => fs.all (fun kv => metaGet d.metadata kv.1 == some kv.2)

/-- Models `rank_bm25.BM25Okapi.__init__`: on an empty corpus
`_initialize` computes `avgdl = num_doc / corpus_size` with
`corpus_size == 0` and raises `ZeroDivisionError`. -/
inductive PyError where
  | fileNotFound
  | zeroDivision
deriving DecidableEq, Repr

/-- Build a BM25 object over a tokenized corpus. -/
def mkBM25Okapi (corpus : List (List Str)) :
    Except PyError (List (List Str)) :=
  if corpus.isEmpty then .error .zeroDivision else .ok corpus

/-- The three artifacts `save` writes into the index directory
(`faiss.index`, `documents.pkl`, `bm25_index.pkl`); `none` models an
absent file. -/
structure Artifacts where
  faissFile : Option (List (List Frac))
  documentsFile : Option (List Document)
  bm25File : Option (List (List Str) × List (List Str))
deriving DecidableEq, Repr

/-- `VectorStore.save`: the FAISS index (never `None` after `__init__`)
and the document list are always written; the BM25 dump
`{"bm25": ..., "tokenized_corpus": ...}` only when a BM25 object
exists. -/
def save (s : State) : Artifacts :=
  { faissFile := some s.faiss,
    documentsFile := some s.documents,
    bm25File := s.bm25.map (fun b => (b, s.tokenized_corpus)) }

/-- `VectorStore.load`: fail fast (`FileNotFoundError`) when the FAISS or
document artifact is missing; when only the BM25 artifact is missing,
rebuild it from the loaded documents — which constructs `BM25Okapi` over
the rebuilt corpus and therefore raises `ZeroDivisionError` when the
loaded document list is empty. -/
def load (a : Artifacts) : Except PyError State :=
  match a.faissFile with
  | none => .error .fileNotFound
  | some f =>
    match a.documentsFile with
    | none => .error .fileNotFound
    | some docs =>
      match a.bm25File with
      | some (b, tc) =>
        .ok { faiss := f, documents := docs, tokenized_corpus := tc,
              bm25 := some b }
      | none =>
        let corpus := docs.map (fun d => tokenize_text d.content)
        match mkBM25Okapi corpus with
        | .error e => .error e
        | .ok b =>
          .ok { faiss := f, documents := docs, tokenized_corpus := corpus,
                bm25 := some b }

/-- `VectorStore.add_documents`.  `enc` is the sentence-transformer
encoder (`§6: embed`, one vector per text).  Returns the count, the new
state, and the artifacts written by the trailing `self.save()` — `none`
when the early return for an empty batch skips everything. -/
def add_documents (enc : Str → List Frac) (s : State)
    (docs : List Document) :
    Except PyError (Nat × State × Option Artifacts) :=
  if docs.isEmpty then .ok (0, s, none)
  else
    let docs' := docs.map (fun d =>
      match d.embedding with
      | some _ => d
      | none => { d with embedding := some (enc d.content) })
    let faiss' := s.faiss ++ docs'.map (fun d => d.embedding.getD [])
    let documents' := s.documents ++ docs'
    let corpus' := documents'.map (fun d => tokenize_text d.content)
    match mkBM25Okapi corpus' with
    | .error e => .error e
    | .ok b =>
      let s' : State :=
        { faiss := faiss', documents := documents',
          tokenized_corpus := corpus', bm25 := some b }
      .ok (docs.length, s', some (save s'))

/-- Stable insertion keeping `b` ahead of the inserted `a` while
`keepBefore b a` holds. -/
def insertBy (keepBefore : α → α → Bool) (a : α) : List α → List α
  | [] => [a]
  | b :: t =>
    if keepBefore b a then b :: insertBy keepBefore a t else a :: b :: t

/-- Stable sort; processing from the right, an element placed before all
later elements it does not strictly lose to, matching Python's stable
`list.sort` and, for ascending distance, FAISS's index-ordered ties. -/
def sortBy (keepBefore : α → α → Bool) : List α → List α
  | [] => []
  | a :: t => insertBy keepBefore a (sortBy keepBefore t)

/-- Squared L2 distance (FAISS `IndexFlatL2` metric). -/
def l2sq (x y : List Frac) : Frac :=
  (List.zipWith Frac.sub x y).foldl
    (fun acc d => Frac.add acc (Frac.mul d d)) (Frac.ofInt 0)

/-- `VectorStore.search`: embed the query, take the
`min(top_k*2, len(documents))` nearest rows by squared L2 distance,
convert distance to `1 - d/maxBatchDistance`, drop out-of-range rows,
apply the metadata filter, sort descending by score and truncate. -/
def search (enc : Str → List Frac) (s : State) (q : Str) (top_k : Nat)
    (fm : Option (List (Str × Str))) : List SearchResult :=
  if s.documents.isEmpty then []
  else
    let qe := enc q
    let n := min (top_k * 2) s.documents.length
    let top := (sortBy (fun x y : Frac × Nat => Frac.lt x.1 y.1)
      (s.faiss.enum.map (fun p => (l2sq p.2 qe, p.1)))).take n
    let maxd :=
      if Frac.lt (Frac.ofInt 0) (maxFrac (top.map (fun p => p.1))) then
        maxFrac (top.map (fun p => p.1))
      else Frac.ofInt 1
    let results := top.filterMap (fun p =>
      match s.documents.get? p.2 with
      | none => none
      | some doc =>
        if passesFilter fm doc then
          some { document := doc,
                 score := Frac.sub (Frac.ofInt 1) (Frac.div p.1 maxd),
                 match_type := "vector".data }
        else none)
    (sortBy (fun b a : SearchResult => Frac.lt a.score b.score) results).take
      top_k

/-- `VectorStore.bm25_search`.  `getScores` is
`rank_bm25.BM25Okapi.get_scores`, a pure function of the corpus the
object was built over and the tokenized query, passed as an explicit
parameter.  Positive-score rows among the `top_k` by descending score are
normalized by the global maximum score. -/
def bm25_search (getScores : List (List Str) → List Str → List Frac)
    (s : State) (q : Str) (top_k : Nat) : List SearchResult :=
  match s.bm25 with
  | none => []
  | some b =>
    if s.documents.isEmpty then []
    else
      let scores := getScores b (tokenize_text q)
      let top := (sortBy (fun x y : Frac × Nat => Frac.lt y.1 x.1)
        (scores.enum.map (fun p => (p.2, p.1)))).take top_k
      let maxS :=
        if Frac.lt (Frac.ofInt 0) (maxFrac scores) then maxFrac scores
        else Frac.ofInt 1
      top.filterMap (fun p =>
        if Frac.le p.1 (Frac.ofInt 0) then none
        else
          (s.documents.get? p.2).map (fun doc =>
            { document := doc, score := Frac.div p.1 maxS,
              match_type := "bm25".data }))

/-- One value of the `combined_scores` dict of `hybrid_search`. -/
structure Entry where
  doc : Document
  vscore : Frac
  bscore : Frac
deriving DecidableEq, Repr

/-- Python-dict upsert on an insertion-ordered association list: replace
the value in place when the key exists, append otherwise. -/
def upsert (k : Str) (f : Option Entry → Entry) :
    List (Str × Entry) → List (Str × Entry)
  | [] => [(k, f none)]
  | (k', e) :: t =>
    if k' = k then (k', f (some e)) :: t else (k', e) :: upsert k f t

/-- The vector-result pass of `hybrid_search`:
`combined_scores[doc_id] = {document, vector_score, bm25_score: 0}`. -/
def setVec (acc : List (Str × Entry)) (r : SearchResult) :
    List (Str × Entry) :=
  upsert r.document.id
    (fun _ => ⟨r.document, r.score, Frac.ofInt 0⟩) acc

/-- The BM25 pass of `hybrid_search`: update `bm25_score` in place for a
known id, insert `{document, vector_score: 0, bm25_score}` otherwise. -/
def setBm (acc : List (Str × Entry)) (r : SearchResult) :
    List (Str × Entry) :=
  upsert r.document.id
    (fun e? =>
      match e? with
      | some e => { e with bscore := r.score }
      | none => ⟨r.document, Frac.ofInt 0, r.score⟩) acc

/-- `VectorStore.hybrid_search`: oversampled vector and BM25 sub-searches
merged by document id into an insertion-ordered dict, weighted combined
scores, a second metadata filter, descending sort, truncation. -/
def hybrid_search (enc : Str → List Frac)
    (getScores : List (List Str) → List Str → List Frac) (s : State)
    (q : Str) (top_k : Nat) (vector_weight bm25_weight : Frac)
    (fm : Option (List (Str × Str))) : List SearchResult :=
  if s.documents.isEmpty then []
  else
    let vres := search enc s q (top_k * 2) fm
    let bres := bm25_search getScores s q (top_k * 2)
    let entries := bres.foldl setBm (vres.foldl setVec [])
    let hres := entries.filterMap (fun ke =>
      let combined := Frac.add (Frac.mul vector_weight ke.2.vscore)
        (Frac.mul bm25_weight ke.2.bscore)
      if passesFilter fm ke.2.doc then
        some { document := ke.2.doc, score := combined,
               match_type := "hybrid".data }
      else none)
    (sortBy (fun b a : SearchResult => Frac.lt a.score b.score) hres).take
      top_k

/-- `VectorStore.get_stats` (the fields the claims consult). -/
def get_stats (s : State) : Nat × Nat × Bool :=
  (s.documents.length, s.faiss.length, s.bm25.isSome)

/-- Structural decidable equality for `Except` outcomes (used only to
evaluate concrete store computations). -/
instance {ε α : Type} [DecidableEq ε] [DecidableEq α] :
    DecidableEq (Except ε α) := fun x y =>
  match x, y with
  | .ok a, .ok b =>
    if h : a = b then .isTrue (by rw [h])
    else .isFalse (fun hc => h (Except.ok.inj hc))
  | .error a, .error b =>
    if h : a = b then .isTrue (by rw [h])
    else .isFalse (fun hc => h (Except.error.inj hc))
  | .ok _, .error _ => .isFalse (fun hc => Except.noConfusion hc)
  | .error _, .ok _ => .isFalse (fun hc => Except.noConfusion hc)

theorem insertBy_perm (kb : α → α → Bool) (a : α) :
    ∀ l : List α, (insertBy kb a l).Perm (a :: l) := by
  intro l
  induction l with
  | nil => simp [insertBy]
  | cons b t ih =>
    simp only [insertBy]
    split
    · exact ((ih.cons b).trans (List.Perm.swap a b t))
    · exact List.Perm.refl _

theorem sortBy_perm (kb : α → α → Bool) :
    ∀ l : List α, (sortBy kb l).Perm l := by
  intro l
  induction l with
  | nil => simp [sortBy]
  | cons a t ih =>
    exact (insertBy_perm kb a (sortBy kb t)).trans (ih.cons a)

theorem mem_upsert_keys (k : Str) (f : Option Entry → Entry)
    (l : List (Str × Entry)) (x : Str) :
    x ∈ (upsert k f l).map Prod.fst ↔ x ∈ l.map Prod.fst ∨ x = k := by
  induction l with
  | nil => simp [upsert]
  | cons p t ih =>
    obtain ⟨k', e⟩ := p
    simp only [upsert]
    split
    · rename_i heq
      subst heq
      simp only [List.map_cons, List.mem_cons]
      constructor
      · rintro (rfl | h)
        · exact Or.inr rfl
        · exact Or.inl (Or.inr h)
      · rintro ((rfl | h) | rfl)
        · exact Or.inl rfl
        · exact Or.inr h
        · exact Or.inl rfl
    · simp only [List.map_cons, List.mem_cons, ih]
      constructor
      · rintro (rfl | (h | rfl))
        · exact Or.inl (Or.inl rfl)
        · exact Or.inl (Or.inr h)
        · exact Or.inr rfl
      · rintro ((rfl | h) | rfl)
        · exact Or.inl rfl
        · exact Or.inr (Or.inl h)
        · exact Or.inr (Or.inr rfl)

theorem upsert_keys_nodup (k : Str) (f : Option Entry → Entry)
    {l : List (Str × Entry)} (h : (l.map Prod.fst).Nodup) :
    ((upsert k f l).map Prod.fst).Nodup := by
  induction l with
  | nil => simp [upsert]
  | cons p t ih =>
    obtain ⟨k', e⟩ := p
    simp only [List.map_cons, List.nodup_cons] at h
    obtain ⟨hk', ht⟩ := h
    simp only [upsert]
    split
    · simp only [List.map_cons]
      exact List.nodup_cons.mpr ⟨hk', ht⟩
    · rename_i hne
      simp only [List.map_cons, List.nodup_cons]
      refine ⟨?_, ih ht⟩
      rw [mem_upsert_keys]
      rintro (h | rfl)
      · exact hk' h
      · exact hne rfl

/-- The `combined_scores` dict maps each document id to an entry whose
document carries that id. -/
def EntriesInv (l : List (Str × Entry)) : Prop :=
  ∀ p ∈ l, p.2.doc.id = p.1

theorem upsert_inv {k : Str} {f : Option Entry → Entry}
    {l : List (Str × Entry)} (hl : EntriesInv l)
    (hnone : (f none).doc.id = k)
    (hsome : ∀ e, e.doc.id = k → (f (some e)).doc.id = k) :
    EntriesInv (upsert k f l) := by
  induction l with
  | nil =>
    intro p hp
    simp only [upsert, List.mem_singleton] at hp
    subst hp
    exact hnone
  | cons q t ih =>
    obtain ⟨k', e⟩ := q
    have hq : e.doc.id = k' := hl _ (List.mem_cons_self _ _)
    have ht : EntriesInv t := fun p hp => hl _ (List.mem_cons_of_mem _ hp)
    intro p hp
    simp only [upsert] at hp
    split at hp
    · rename_i heq
      subst heq
      rcases List.mem_cons.mp hp with rfl | hp'
      · exact hsome e hq
      · exact ht _ hp'
    · rcases List.mem_cons.mp hp with rfl | hp'
      · exact hq
      · exact ih ht _ hp'

theorem foldl_setVec_keys_nodup (rs : List SearchResult) :
    ∀ acc : List (Str × Entry), (acc.map Prod.fst).Nodup →
      ((rs.foldl setVec acc).map Prod.fst).Nodup := by
  induction rs with
  | nil => intro acc h; exact h
  | cons r t ih =>
    intro acc h
    exact ih _ (upsert_keys_nodup _ _ h)

theorem foldl_setBm_keys_nodup (rs : List SearchResult) :
    ∀ acc : List (Str × Entry), (acc.map Prod.fst).Nodup →
      ((rs.foldl setBm acc).map Prod.fst).Nodup := by
  induction rs with
  | nil => intro acc h; exact h
  | cons r t ih =>
    intro acc h
    exact ih _ (upsert_keys_nodup _ _ h)

theorem foldl_setVec_inv (rs : List SearchResult) :
    ∀ acc : List (Str × Entry), EntriesInv acc →
      EntriesInv (rs.foldl setVec acc) := by
  induction rs with
  | nil => intro acc h; exact h
  | cons r t ih =>
    intro acc h
    exact ih _ (upsert_inv h rfl (fun _ _ => rfl))

theorem foldl_setBm_inv (rs : List SearchResult) :
    ∀ acc : List (Str × Entry), EntriesInv acc →
      EntriesInv (rs.foldl setBm acc) := by
  induction rs with
  | nil => intro acc h; exact h
  | cons r t ih =>
    intro acc h
    refine ih _ (upsert_inv h rfl ?_)
    intro e he
    exact he

theorem filterMap_ids_sublist (vw bw : Frac) (fm : Option (List (Str × Str))) :
    ∀ entries : List (Str × Entry), EntriesInv entries →
      ((entries.filterMap (fun ke =>
        let combined := Frac.add (Frac.mul vw ke.2.vscore)
          (Frac.mul bw ke.2.bscore)
        if passesFilter fm ke.2.doc then
          some { document := ke.2.doc, score := combined,
                 match_type := "hybrid".data }
        else none)).map (fun r : SearchResult => r.document.id)).Sublist
        (entries.map Prod.fst) := by
  intro entries
  induction entries with
  | nil => intro _; simp
  | cons ke t ih =>
    intro hinv
    have hid : ke.2.doc.id = ke.1 := hinv _ (List.mem_cons_self _ _)
    have ht : EntriesInv t := fun p hp => hinv _ (List.mem_cons_of_mem _ hp)
    simp only [List.filterMap_cons]
    split
    · exact (ih ht).cons _
    · rename_i r hr
      split at hr
      · cases hr
        simpa [hid] using (ih ht).cons₂ ke.1
      · cases hr

theorem sortBy_take_ids_nodup (kb : SearchResult → SearchResult → Bool)
    (n : Nat) (l : List SearchResult)
    (h : (l.map (fun r => r.document.id)).Nodup) :
    (((sortBy kb l).take n).map (fun r => r.document.id)).Nodup := by
  have hperm := (sortBy_perm kb l).map (fun r : SearchResult => r.document.id)
  exact (hperm.nodup_iff.mpr h).sublist
    ((List.take_sublist n (sortBy kb l)).map (fun r : SearchResult => r.document.id))

/-- In the merge of `hybrid_search`, document ids are dict keys, so the
returned results carry pairwise distinct ids: the two copies of a
duplicated id can never both appear. -/
theorem hybrid_search_ids_nodup (enc : Str → List Frac)
    (getScores : List (List Str) → List Str → List Frac) (s : State)
    (q : Str) (top_k : Nat) (vw bw : Frac)
    (fm : Option (List (Str × Str))) :
    ((hybrid_search enc getScores s q top_k vw bw fm).map
      (fun r => r.document.id)).Nodup := by
  unfold hybrid_search
  split
  · simp
  · have hkeys : (((bm25_search getScores s q (top_k * 2)).foldl setBm
        ((search enc s q (top_k * 2) fm).foldl setVec [])).map Prod.fst).Nodup :=
      foldl_setBm_keys_nodup _ _
        (foldl_setVec_keys_nodup _ [] (by simp))
    have hinv : EntriesInv ((bm25_search getScores s q (top_k * 2)).foldl setBm
        ((search enc s q (top_k * 2) fm).foldl setVec [])) :=
      foldl_setBm_inv _ _ (foldl_setVec_inv _ [] (by intro p hp; cases hp))
    exact sortBy_take_ids_nodup _ top_k _
      (hkeys.sublist (filterMap_ids_sublist vw bw fm _ hinv))

/-- C10: `add_documents` on an empty batch returns 0 before the
embedding, FAISS, BM25 and save steps: the state is unchanged and no
artifacts are written. -/
theorem add_documents_empty_is_noop (enc : Str → List Frac) (s : State) :
    add_documents enc s [] = Except.ok (0, s, none) := rfl

/-- C1 (amended): whenever the BM25 object exists — which `add_documents`
guarantees after any nonempty batch — `save` then `load` reproduces the
exact store state, hence an identical document count and identical
vector, keyword and hybrid results for every query, `k`, weights and
filter. -/
theorem save_load_roundtrip (s : State) (h : s.bm25.isSome) :
    load (save s) = Except.ok s ∧
    (∀ s2, load (save s) = Except.ok s2 →
      s2.documents.length = s.documents.length ∧
      ∀ enc getScores q k vw bw fm,
        search enc s2 q k fm = search enc s q k fm ∧
        bm25_search getScores s2 q k = bm25_search getScores s q k ∧
        hybrid_search enc getScores s2 q k vw bw fm =
          hybrid_search enc getScores s q k vw bw fm) ∧
    (∀ enc docs r, docs ≠ [] →
      add_documents enc s docs = Except.ok r → r.2.1.bm25.isSome) := by
  obtain ⟨b, hb⟩ := Option.isSome_iff_exists.mp h
  have h1 : load (save s) = Except.ok s := by
    cases s with
    | mk f d tc bm =>
      simp only at hb
      subst hb
      rfl
  refine ⟨h1, ?_, ?_⟩
  · intro s2 h2
    rw [h1] at h2
    cases h2
    exact ⟨rfl, fun _ _ _ _ _ _ _ => ⟨rfl, rfl, rfl⟩⟩
  · intro enc docs r hne hr
    unfold add_documents at hr
    rw [if_neg (by simpa [List.isEmpty_iff] using hne)] at hr
    dsimp only at hr
    split at hr
    · cases hr
    · cases hr
      rfl

/-- A nonempty one-document store used to instantiate the round-trip
law. -/
def sampleDoc : Document :=
  { id := "dispute_001".data, content := "aa bb".data, metadata := [],
    embedding := some [Frac.ofInt 1, Frac.ofInt 2] }

/-- The store state holding `sampleDoc`. -/
def sampleState : State :=
  { faiss := [[Frac.ofInt 1, Frac.ofInt 2]], documents := [sampleDoc],
    tokenized_corpus := [["aa".data, "bb".data]],
    bm25 := some [["aa".data, "bb".data]] }

/-- A closed instance of the round-trip law at a one-document store. -/
theorem save_load_roundtrip_witness :
    load (save sampleState) = Except.ok sampleState :=
  (save_load_roundtrip sampleState (by decide)).1

/-- Counterexample to C1 as stated: for the empty document set, `save`
writes no BM25 artifact, and `load` into a fresh instance rebuilds
`BM25Okapi` over the zero loaded documents, raising `ZeroDivisionError`
instead of reproducing the store. -/
theorem save_load_empty_fails :
    load (save emptyState) = Except.error PyError.zeroDivision := rfl

/-- First stored copy of the duplicated id `d`. -/
def docA : Document :=
  { id := "d".data, content := "aa bb".data, metadata := [],
    embedding := some [Frac.ofInt 0, Frac.ofInt 0] }

/-- Second stored copy of the duplicated id `d` (different content). -/
def docB : Document :=
  { id := "d".data, content := "aa cc".data, metadata := [],
    embedding := some [Frac.ofInt 3, Frac.ofInt 4] }

/-- The store holding both copies of id `d`. -/
def dupState : State :=
  { faiss := [[Frac.ofInt 0, Frac.ofInt 0], [Frac.ofInt 3, Frac.ofInt 4]],
    documents := [docA, docB],
    tokenized_corpus := [["aa".data, "bb".data], ["aa".data, "cc".data]],
    bm25 := some [["aa".data, "bb".data], ["aa".data, "cc".data]] }

/-- A concrete encoder for the duplicate-id scenario. -/
def encC : Str → List Frac := fun _ => [Frac.ofInt 0, Frac.ofInt 0]

/-- A concrete stand-in scorer for `BM25Okapi.get_scores` (token-overlap
count); the dict-collapse argument is generic in the scorer. -/
def gsC : List (List Str) → List Str → List Frac := fun corpus qt =>
  corpus.map (fun dt =>
    Frac.ofInt ((qt.filter (fun t => dt.contains t)).length))

/-- Counterexample to C8 as stated: on a store holding two documents with
the same id, vector search and keyword search both return the two copies
as separate results, but hybrid search — claimed to be able to do the
same — merges by document id and returns a single result. -/
theorem hybrid_collapses_duplicate_ids :
    (search encC dupState "aa bb".data 5 none).map
      (fun r => r.document.id) = ["d".data, "d".data] ∧
    (bm25_search gsC dupState "aa bb".data 5).map
      (fun r => r.document.id) = ["d".data, "d".data] ∧
    (hybrid_search encC gsC dupState "aa bb".data 5
      ⟨1, 2⟩ ⟨1, 2⟩ none).length = 1 := by
  decide

/-- C8 (amended): duplicate ids are accepted and both copies stored;
vector and keyword search can return both copies as separate results;
hybrid search instead merges by document id and can return at most one
result per id, for every store, query, weights and filter. -/
theorem duplicate_ids_stored_both_searchable_hybrid_merged :
    add_documents encC emptyState [docA, docB] =
      Except.ok (2, dupState, some (save dupState)) ∧
    (search encC dupState "aa bb".data 5 none).map
      (fun r => r.document.id) = ["d".data, "d".data] ∧
    (bm25_search gsC dupState "aa bb".data 5).map
      (fun r => r.document.id) = ["d".data, "d".data] ∧
    ∀ enc getScores s q top_k vw bw fm,
      ((hybrid_search enc getScores s q top_k vw bw fm).map
        (fun r => r.document.id)).Nodup := by
  refine ⟨by decide, by decide, by decide, ?_⟩
  intro enc getScores s q top_k vw bw fm
  exact hybrid_search_ids_nodup enc getScores s q top_k vw bw fm

end VectorStore

end LegalAI
